import Mathlib

/-!
Verification of the duel state machine, streak engine and problem selector
of the cp-master-bot repository.

The embedding is shallow: SQLite tables become Lean lists of records,
timestamps become integers (minutes for duel times, day numbers for calendar
dates), and the external collaborators (Telegram transport, Codeforces HTTP
fetch, `random.choice`) become explicit parameters of the modelled handlers.
Each definition is transcribed from the named source function.
-/

namespace CpMaster

/-! ## Duel data model (src/database.py, `duels` table) -/

/-- Status column of the `duels` table (TEXT, default `'pending'`). -/
inductive DuelStatus
  | pending
  | active
  | completed
  | declined
deriving DecidableEq

/-- One row of the `duels` table.  `duelId` models the AUTOINCREMENT primary
key; rows are kept in creation order, so `created_at` ordering is list order.
Times are integers in minutes. -/
structure Duel where
  duelId : Nat
  chatId : Int
  challengerId : Int
  challengedId : Int
  problemRating : Int
  problemName : Option String
  problemUrl : Option String
  status : DuelStatus
  startTime : Option Int
  endTime : Option Int
deriving DecidableEq

/-- The duel store: the `duels` table in creation order plus the next
AUTOINCREMENT id. -/
structure DB where
  duels : List Duel
  nextId : Nat
deriving DecidableEq

/-- Last element of the list satisfying `p`: models
`SELECT ... ORDER BY created_at DESC LIMIT 1` over rows kept in creation
order. -/
def lastP {α : Type} (p : α → Bool) : List α → Option α
  | [] => none
  | a :: tl =>
    match lastP p tl with
    | some x => some x
    | none => if p a then some a else none

/-- Row predicate of `get_pending_duel`'s WHERE clause:
`challenged_id = ? AND status = 'pending'`. -/
def isPendingFor (u : Int) (d : Duel) : Bool :=
  decide (d.challengedId = u ∧ d.status = DuelStatus.pending)

/-- `database.get_pending_duel`: newest pending duel challenging `u`. -/
def get_pending_duel (db : DB) (u : Int) : Option Duel :=
  lastP (isPendingFor u) db.duels

/-- `database.create_duel`: INSERT a new row with status `'pending'` and
NULL problem/time columns; returns the new row id (`lastrowid`). -/
def create_duel (db : DB) (chatId challenger challenged : Int)
    (problemRating : Int) : DB × Nat :=
  (⟨db.duels ++
      [⟨db.nextId, chatId, challenger, challenged, problemRating,
        none, none, DuelStatus.pending, none, none⟩],
    db.nextId + 1⟩,
   db.nextId)

/-- Keyword-argument column update: a `some` value overwrites the column,
`none` leaves it alone (the kwarg was not passed). -/
def setCol {α : Type} (new cur : Option α) : Option α :=
  match new with
  | some v => some v
  | none => cur

/-- `database.update_duel_status`: set `status` on every row with the given
id, and overwrite exactly the columns passed as kwargs. -/
def update_duel_status (db : DB) (id : Nat) (st : DuelStatus)
    (start endT : Option Int) (pname purl : Option String) : DB :=
  ⟨db.duels.map (fun d =>
      if d.duelId = id then
        { d with
          status := st
          startTime := setCol start d.startTime
          endTime := setCol endT d.endTime
          problemName := setCol pname d.problemName
          problemUrl := setCol purl d.problemUrl }
      else d),
   db.nextId⟩

/-! ## Duel handlers (src/handlers/duel.py) -/

/-- `DUEL_DURATION = 60` (minutes). -/
def DUEL_DURATION : Int := 60

/-- One inbound `/duel` command after the Telegram parsing layer: whether the
chat is a group, the chat id, the two user ids and the requested rating. -/
structure ChallengeReq where
  isGroup : Bool
  chatId : Int
  challenger : Int
  challenged : Int
  rating : Int
deriving DecidableEq

/-- Replies `challenge_user` can send (the Telegram messages). -/
inductive ChallengeReply
  | notGroup
  | invalidRating
  | selfChallenge
  | alreadyPending
  | challenged (duelId : Nat)
deriving DecidableEq

/-- `duel.challenge_user`, guards in source order: group check, rating bound
(800..3500), self-challenge check, pending-duel check, then `create_duel`.
The argument-count / reply-to parsing guards live in the Telegram layer and
carry no state. -/
def challenge_user (db : DB) (req : ChallengeReq) : DB × ChallengeReply :=
  if req.isGroup = false then (db, ChallengeReply.notGroup)
  else if req.rating < 800 ∨ 3500 < req.rating then
    (db, ChallengeReply.invalidRating)
  else if req.challenged = req.challenger then
    (db, ChallengeReply.selfChallenge)
  else
    match get_pending_duel db req.challenged with
    | some _ => (db, ChallengeReply.alreadyPending)
    | none =>
      let r := create_duel db req.chatId req.challenger req.challenged req.rating
      (r.1, ChallengeReply.challenged r.2)

/-- Fold a sequence of `/duel` commands over the store. -/
def runChallenges (db : DB) : List ChallengeReq → DB
  | [] => db
  | r :: tl => runChallenges (challenge_user db r).1 tl

/-- Number of pending duels challenging `u` (the claim's counted quantity). -/
def countPending (db : DB) (u : Int) : Nat :=
  (db.duels.filter (isPendingFor u)).length

/-- A problem as returned by `problem_selector.get_random_problem` with the
fields `accept_duel` reads. -/
structure Problem where
  name : String
  url : String
deriving DecidableEq

/-- Replies `accept_duel` can send. -/
inductive AcceptReply
  | noPending
  | problemFailed
  | started (name url : String)
deriving DecidableEq

/-- `duel.accept_duel`.  The awaited `get_random_problem(problem_rating)`
call is the `selector` parameter; `now` is `datetime.now()`. -/
def accept_duel (db : DB) (u : Int) (selector : Int → Option Problem)
    (now : Int) : DB × AcceptReply :=
  match get_pending_duel db u with
  | none => (db, AcceptReply.noPending)
  | some duel =>
    match selector duel.problemRating with
    | none => (db, AcceptReply.problemFailed)
    | some p =>
      (update_duel_status db duel.duelId DuelStatus.active
        (some now) (some (now + DUEL_DURATION)) (some p.name) (some p.url),
       AcceptReply.started p.name p.url)

/-- Replies `decline_duel` can send. -/
inductive DeclineReply
  | noPending
  | declined
deriving DecidableEq

/-- `duel.decline_duel`. -/
def decline_duel (db : DB) (u : Int) : DB × DeclineReply :=
  match get_pending_duel db u with
  | none => (db, DeclineReply.noPending)
  | some duel =>
    (update_duel_status db duel.duelId DuelStatus.declined none none none none,
     DeclineReply.declined)

/-- Row predicate of `duel_status`'s query:
`(challenger_id = ? OR challenged_id = ?) AND status = 'active'`. -/
def isActiveFor (u : Int) (d : Duel) : Bool :=
  decide ((d.challengerId = u ∨ d.challengedId = u) ∧
          d.status = DuelStatus.active)

/-- The `ORDER BY created_at DESC LIMIT 1` lookup of `duel_status`. -/
def get_active_duel (db : DB) (u : Int) : Option Duel :=
  lastP (isActiveFor u) db.duels

/-- Replies `duel_status` can send. -/
inductive StatusReply
  | noActiveDuel
  | timeUp
  | remaining (minutes seconds : Int)
deriving DecidableEq

/-- `duel.duel_status`: look up the newest active duel of the participant;
if `end_time - now ≤ 0` report time-up and set the duel `'completed'`,
otherwise report the remaining minutes and seconds.  An active duel always
carries an `end_time` (the code would raise on NULL); `getD 0` only fills
the unreachable NULL case. -/
def duel_status (db : DB) (u : Int) (now : Int) : DB × StatusReply :=
  match get_active_duel db u with
  | none => (db, StatusReply.noActiveDuel)
  | some d =>
    let e := d.endTime.getD 0
    let remaining := e - now
    if remaining ≤ 0 then
      (update_duel_status db d.duelId DuelStatus.completed none none none none,
       StatusReply.timeUp)
    else
      (db, StatusReply.remaining (remaining / 60) (remaining % 60))

/-! ## Streak store update (src/database.py, `update_streak`) -/

/-- One row of the `streaks` table.  `lastSolveDate` is a calendar day
number (the parsed `%Y-%m-%d` date). -/
structure StreakRow where
  currentStreak : Int
  maxStreak : Int
  lastSolveDate : Option Int
  totalSolves : Int
deriving DecidableEq

/-- The row-present branch of `database.update_streak`: same-day call keeps
the row, a one-day gap extends the streak and lifts `max_streak`, anything
else resets `current_streak` to 1; the two mutating branches stamp `today`
and bump `total_solves`. -/
def updateStreakRow (s : StreakRow) (today : Int) : StreakRow :=
  if s.lastSolveDate = some today then s
  else
    match s.lastSolveDate with
    | some d =>
      if today - d = 1 then
        ⟨s.currentStreak + 1, max s.maxStreak (s.currentStreak + 1),
         some today, s.totalSolves + 1⟩
      else
        ⟨1, s.maxStreak, some today, s.totalSolves + 1⟩
    | none =>
      ⟨1, s.maxStreak, some today, s.totalSolves + 1⟩

/-- `database.update_streak` on the user's row (`none` = no row yet, the
first-solve INSERT). -/
def update_streak (row : Option StreakRow) (today : Int) : StreakRow :=
  match row with
  | some s => updateStreakRow s today
  | none => ⟨1, 1, some today, 1⟩

/-- Fold a sequence of solve days through `update_streak` on an existing
row. -/
def runStreak (s : StreakRow) : List Int → StreakRow
  | [] => s
  | d :: tl => runStreak (updateStreakRow s d) tl

/-- Streak rows actually stored by the code: the first-solve INSERT or the
result of a further `update_streak` call on a stored row. -/
inductive StoredStreak : StreakRow → Prop
  | first (today : Int) : StoredStreak (update_streak none today)
  | step (s : StreakRow) (today : Int) :
      StoredStreak s → StoredStreak (update_streak (some s) today)

/-! ## Streak computation from history (src/handlers/tracker.py) -/

/-- One Codeforces submission as `calculate_streak_from_submissions` reads
it: its verdict string and the calendar day of
`datetime.fromtimestamp(creationTimeSeconds).date()` in the fixed local
timezone. -/
structure Submission where
  verdict : String
  day : Int
deriving DecidableEq

/-- The dates the function aggregates: days of the accepted (`'OK'`)
submissions. -/
def datesOf (subs : List Submission) : List Int :=
  (subs.filter (fun s => decide (s.verdict = "OK"))).map (fun s => s.day)

/-- Insert a day into a duplicate-free descending list, dropping it when
already present. -/
def insertDateDesc (x : Int) : List Int → List Int
  | [] => [x]
  | y :: tl =>
    if y < x then x :: y :: tl
    else if x = y then y :: tl
    else y :: insertDateDesc x tl

/-- `sorted(set(dates), reverse=True)`: the distinct dates in descending
order. -/
def sortedDatesDesc (ds : List Int) : List Int :=
  ds.foldl (fun acc d => insertDateDesc d acc) []

/-- The current-streak loop: walk the descending date list, counting while
each date equals `today - current`, stopping at the first mismatch. -/
def currentWalk (today : Int) : List Int → Int → Int
  | [], c => c
  | d :: tl, c => if d = today - c then currentWalk today tl (c + 1) else c

/-- The max-streak loop: `prev` is `sorted_dates[i-1]`, `temp` the running
run length, `mx` the best so far; a 1-day gap extends, anything else resets
`temp` to 1. -/
def maxLoop : Int → Int → Int → List Int → Int
  | _, _, mx, [] => mx
  | prev, temp, mx, d :: tl =>
    if prev - d = 1 then maxLoop d (temp + 1) (max mx (temp + 1)) tl
    else maxLoop d 1 mx tl

/-- Result record of `calculate_streak_from_submissions`. -/
structure StreakResult where
  currentStreak : Int
  maxStreak : Int
  totalSolves : Int
deriving DecidableEq

/-- `tracker.calculate_streak_from_submissions`: empty submission list or
empty accepted-date set give all zeros; otherwise the current-streak walk
from `today` (`datetime.now().date()`, passed explicitly here), the
max-streak scan seeded with `max = temp = 1`, and the distinct-date count. -/
def calculate_streak_from_submissions (subs : List Submission) (today : Int) :
    StreakResult :=
  match subs with
  | [] => ⟨0, 0, 0⟩
  | s :: rest =>
    match sortedDatesDesc (datesOf (s :: rest)) with
    | [] => ⟨0, 0, 0⟩
    | a :: tl =>
      ⟨currentWalk today (a :: tl) 0, maxLoop a 1 1 tl,
       ((a :: tl).length : Int)⟩

/-- Modelled from the spec's wording for `current_streak`: the length of the
prefix of the descending date list whose k-th entry equals
`reference_date - k` — the backward walk that "breaks at the first date that
doesn't match `reference_date - current_streak`". -/
def specCurrentStreak (today : Int) (k : Int) : List Int → Int
  | [] => 0
  | d :: tl => if d = today - k then 1 + specCurrentStreak today (k + 1) tl else 0

/-- Length of the consecutive run (adjacent entries exactly 1 apart in the
descending list) starting at the head. -/
def headRun : List Int → Int
  | [] => 0
  | [_] => 1
  | a :: b :: tl => if a - b = 1 then 1 + headRun (b :: tl) else 1

/-- Modelled from the spec's wording for `max_streak`: the longest run of
consecutive dates anywhere in the sorted date set — the maximum over all
start positions of the run beginning there. -/
def specMaxStreak : List Int → Int
  | [] => 0
  | a :: tl => max (headRun (a :: tl)) (specMaxStreak tl)

/-- Best run the `maxLoop` scan can still reach: the state `(prev, temp)`
with the accumulator dropped. -/
def chainMax : Int → Int → List Int → Int
  | _, t, [] => t
  | prev, t, d :: tl =>
    if prev - d = 1 then chainMax d (t + 1) tl
    else max t (chainMax d 1 tl)

/-! ## Problem selector (src/services) -/

/-- A raw problem record of the Codeforces `problemset.problems` payload,
with the fields the selector reads.  Absent JSON keys are `none`. -/
structure CFProblem where
  contestId : Option Int
  index : Option String
  name : Option String
  rating : Option Int
  tags : List String
deriving DecidableEq

/-- Rating filter of `codeforces_api.get_problems_by_rating`:
`'rating' in p and min_rating <= p['rating'] <= max_rating`. -/
def ratingInWindow (minR maxR : Int) (p : CFProblem) : Bool :=
  match p.rating with
  | some r => decide (minR ≤ r ∧ r ≤ maxR)
  | none => false

/-- `codeforces_api.get_problems_by_rating` applied to the fetched
problemset (`none` = the HTTP fetch failed). -/
def get_problems_by_rating (fetched : Option (List CFProblem))
    (minR maxR : Int) : Option (List CFProblem) :=
  match fetched with
  | none => none
  | some ps => some (ps.filter (ratingInWindow minR maxR))

/-- `codeforces_api.format_problem_url`. -/
def format_problem_url (contestId : Int) (index : String) : String :=
  "https://codeforces.com/problemset/problem/" ++ toString contestId
    ++ "/" ++ index

/-- The dictionary `get_codeforces_problem` returns. -/
structure SelectedProblem where
  name : String
  rating : Option Int
  tags : List String
  url : String
  contestId : Int
  index : String
deriving DecidableEq

/-- `random.choice(problems)` resolved by the `pick` parameter, reduced mod
the candidate count so every possible choice is covered. -/
def chooseFrom (ps : List CFProblem) (pick : Nat) (dflt : CFProblem) : CFProblem :=
  ps.getD (pick % ps.length) dflt

/-- The response-formatting tail of `get_codeforces_problem`: a falsy
`contestId` (absent or 0) or `index` (absent or empty) yields `none`,
otherwise the reply dictionary with `name` defaulted to `'Unknown'` and the
formatted problem url. -/
def mkSelected (problem : CFProblem) : Option SelectedProblem :=
  match problem.contestId, problem.index with
  | some cid, some idx =>
    if cid = 0 ∨ idx = "" then none
    else
      some ⟨problem.name.getD "Unknown", problem.rating, problem.tags,
            format_problem_url cid idx, cid, idx⟩
  | some _, none => none
  | none, _ => none

/-- `problem_selector.get_codeforces_problem`.  `fetched` is the problemset
fetch result.  With a rating the candidates come from
`get_problems_by_rating(rating - 100, rating + 100)`; an empty or failed
candidate set yields `none`; otherwise a randomly chosen candidate is
formatted. -/
def get_codeforces_problem (fetched : Option (List CFProblem))
    (rating : Option Int) (pick : Nat) : Option SelectedProblem :=
  match (match rating with
         | some r => get_problems_by_rating fetched (r - 100) (r + 100)
         | none => fetched) with
  | none => none
  | some [] => none
  | some (p₀ :: rest) => mkSelected (chooseFrom (p₀ :: rest) pick p₀)

/-! ## Concrete stores used by the closed counterexample and witnesses -/

/-- A store holding one active duel between users 1 and 2 ending at time 10. -/
def exActiveDB : DB :=
  ⟨[⟨1, 100, 1, 2, 1400, some "P", some "u", DuelStatus.active,
     some (-50), some 10⟩], 2⟩

/-- A store holding one pending duel challenging user 2. -/
def exPendingDB : DB :=
  ⟨[⟨1, 100, 1, 2, 1400, none, none, DuelStatus.pending, none, none⟩], 2⟩


/-! ## Helper lemmas about the store lookups -/

theorem lastP_some {α : Type} {p : α → Bool} {l : List α} {x : α}
    (h : lastP p l = some x) : x ∈ l ∧ p x = true := by
  induction l with
  | nil => simp [lastP] at h
  | cons a tl ih =>
    simp only [lastP] at h
    cases htl : lastP p tl with
    | some y =>
      rw [htl] at h
      simp only [Option.some.injEq] at h
      subst h
      rcases ih htl with ⟨hm, hp⟩
      exact ⟨List.mem_cons_of_mem _ hm, hp⟩
    | none =>
      rw [htl] at h
      by_cases hpa : p a = true
      · rw [if_pos hpa] at h
        simp only [Option.some.injEq] at h
        subst h
        exact ⟨List.mem_cons_self _ _, hpa⟩
      · rw [if_neg hpa] at h
        simp at h

theorem lastP_eq_none {α : Type} {p : α → Bool} {l : List α} :
    lastP p l = none ↔ ∀ a ∈ l, p a = false := by
  induction l with
  | nil => simp [lastP]
  | cons a tl ih =>
    simp only [lastP]
    cases htl : lastP p tl with
    | some y =>
      simp only [htl]
      constructor
      · intro h; exact absurd h (by simp)
      · intro h
        rcases lastP_some htl with ⟨hm, hp⟩
        have := h y (List.mem_cons_of_mem _ hm)
        rw [this] at hp
        exact absurd hp (by simp)
    | none =>
      simp only [htl]
      constructor
      · intro h
        by_cases hpa : p a = true
        · rw [if_pos hpa] at h; simp at h
        · intro b hb
          rcases List.mem_cons.mp hb with rfl | hbt
          · exact Bool.eq_false_iff.mpr hpa
          · exact (ih.mp htl) b hbt
      · intro h
        rw [if_neg (by simp [h a (List.mem_cons_self _ _)])]


theorem countPending_challenge_le (db : DB) (req : ChallengeReq) (U : Int)
    (h : countPending db U ≤ 1) : countPending (challenge_user db req).1 U ≤ 1 := by
  unfold challenge_user
  split
  · exact h
  split
  · exact h
  split
  · exact h
  cases hp : get_pending_duel db req.challenged with
  | some d => simpa using h
  | none =>
    simp only []
    unfold countPending create_duel
    simp only [List.filter_append, List.length_append]
    by_cases hU : U = req.challenged
    · have hall : ∀ a ∈ db.duels, isPendingFor req.challenged a = false :=
        lastP_eq_none.mp hp
      have hnil : db.duels.filter (isPendingFor req.challenged) = [] :=
        List.filter_eq_nil_iff.mpr (fun a ha => by simp [hall a ha])
      rw [hU, hnil]
      simp only [List.length_nil, Nat.zero_add]
      exact le_trans (List.length_filter_le _ _) (by simp)
    · have hnd : isPendingFor U
          ⟨db.nextId, req.chatId, req.challenger, req.challenged, req.rating,
           none, none, DuelStatus.pending, none, none⟩ = false := by
        simp only [isPendingFor, decide_eq_false_iff_not]
        intro hc
        exact hU hc.1.symm
      simp only [List.filter_cons, hnd, List.filter_nil, List.length_nil]
      simpa using h

theorem countPending_run_le (db : DB) (U : Int) (h : countPending db U ≤ 1)
    (reqs : List ChallengeReq) : countPending (runChallenges db reqs) U ≤ 1 := by
  induction reqs generalizing db with
  | nil => simpa [runChallenges] using h
  | cons r tl ih =>
    rw [runChallenges]
    exact ih _ (countPending_challenge_le db r U h)

/-- C1: at most one pending duel ever challenges a given user: when the
other guards pass and a pending duel challenging the target exists,
`challenge_user` replies AlreadyPending and leaves the store untouched, and
any sequence of `/duel` commands keeps the pending count for every user at
most 1. -/
theorem challenge_single_pending :
    (∀ (db : DB) (req : ChallengeReq) (d : Duel),
        req.isGroup = true → 800 ≤ req.rating → req.rating ≤ 3500 →
        req.challenged ≠ req.challenger →
        get_pending_duel db req.challenged = some d →
        challenge_user db req = (db, ChallengeReply.alreadyPending)) ∧
    (∀ (db : DB) (U : Int), countPending db U ≤ 1 →
        ∀ reqs : List ChallengeReq, countPending (runChallenges db reqs) U ≤ 1) := by
  constructor
  · intro db req d hg hlo hhi hne hp
    unfold challenge_user
    rw [if_neg (by simp [hg]), if_neg (by omega), if_neg hne, hp]
  · intro db U h reqs
    exact countPending_run_le db U h reqs

/-- Witness for C1 at a concrete store holding one pending duel. -/
theorem challenge_single_pending_witness :
    challenge_user exPendingDB ⟨true, 100, 3, 2, 1400⟩
      = (exPendingDB, ChallengeReply.alreadyPending) ∧
    countPending (runChallenges exPendingDB
      [⟨true, 100, 3, 2, 1400⟩, ⟨true, 100, 2, 5, 1000⟩]) 2 ≤ 1 :=
  ⟨challenge_single_pending.1 exPendingDB ⟨true, 100, 3, 2, 1400⟩
      ⟨1, 100, 1, 2, 1400, none, none, DuelStatus.pending, none, none⟩
      rfl (by decide) (by decide) (by decide) (by decide),
   challenge_single_pending.2 exPendingDB 2 (by decide) _⟩

/-- C3: a user with no pending duel challenging them gets the
no-pending-duel failure from both `/accept` and `/decline`, with the store
unchanged. -/
theorem accept_decline_no_pending (db : DB) (u : Int)
    (sel : Int → Option Problem) (now : Int)
    (h : ∀ x ∈ db.duels, x.challengedId = u → x.status ≠ DuelStatus.pending) :
    accept_duel db u sel now = (db, AcceptReply.noPending) ∧
    decline_duel db u = (db, DeclineReply.noPending) := by
  have hp : get_pending_duel db u = none :=
    lastP_eq_none.mpr (fun a ha => by
      simp only [isPendingFor, decide_eq_false_iff_not]
      intro hc
      exact h a ha hc.1 hc.2)
  constructor
  · unfold accept_duel
    rw [hp]
  · unfold decline_duel
    rw [hp]

/-- Witness for C3: user 2's only duel is active, not pending. -/
theorem accept_decline_no_pending_witness :
    accept_duel exActiveDB 2 (fun _ => none) 0 = (exActiveDB, AcceptReply.noPending) ∧
    decline_duel exActiveDB 2 = (exActiveDB, DeclineReply.noPending) :=
  accept_decline_no_pending exActiveDB 2 (fun _ => none) 0 (by decide)

/-- C4: when the problem selector returns nothing, `/accept` reports the
problem fetch failure, the store is unchanged, and the duel is still the
user's pending duel, so accept can be retried. -/
theorem accept_problem_unavailable (db : DB) (u : Int)
    (sel : Int → Option Problem) (now : Int) (d : Duel)
    (hd : get_pending_duel db u = some d) (hsel : sel d.problemRating = none) :
    accept_duel db u sel now = (db, AcceptReply.problemFailed) ∧
    get_pending_duel (accept_duel db u sel now).1 u = some d := by
  have h1 : accept_duel db u sel now = (db, AcceptReply.problemFailed) := by
    unfold accept_duel
    simp only [hd]
    rw [hsel]
  refine ⟨h1, ?_⟩
  rw [h1]
  exact hd

/-- Witness for C4 at the concrete pending store with a failing selector. -/
theorem accept_problem_unavailable_witness :
    accept_duel exPendingDB 2 (fun _ => none) 0 = (exPendingDB, AcceptReply.problemFailed) ∧
    get_pending_duel (accept_duel exPendingDB 2 (fun _ => none) 0).1 2
      = some ⟨1, 100, 1, 2, 1400, none, none, DuelStatus.pending, none, none⟩ :=
  accept_problem_unavailable exPendingDB 2 (fun _ => none) 0
    ⟨1, 100, 1, 2, 1400, none, none, DuelStatus.pending, none, none⟩
    (by decide) rfl

/-- C5: a successful accept reports the started duel, sets the accepted
duel active with `start_time = now`, `end_time = now + DUEL_DURATION`
(60 minutes) and the selected problem's name and url, and preserves the
`end = start + duration` invariant across every active duel. -/
theorem accept_binds_problem_and_times (db : DB) (u : Int)
    (sel : Int → Option Problem) (now : Int) (d : Duel) (p : Problem)
    (hd : get_pending_duel db u = some d)
    (hsel : sel d.problemRating = some p) :
    DUEL_DURATION = 60 ∧
    (accept_duel db u sel now).2 = AcceptReply.started p.name p.url ∧
    (∀ x ∈ (accept_duel db u sel now).1.duels, x.duelId = d.duelId →
        x.status = DuelStatus.active ∧ x.startTime = some now ∧
        x.endTime = some (now + DUEL_DURATION) ∧
        x.problemName = some p.name ∧ x.problemUrl = some p.url) ∧
    (∃ x ∈ (accept_duel db u sel now).1.duels, x.duelId = d.duelId) ∧
    ((∀ x ∈ db.duels, x.status = DuelStatus.active →
        ∃ s, x.startTime = some s ∧ x.endTime = some (s + DUEL_DURATION)) →
      ∀ x ∈ (accept_duel db u sel now).1.duels, x.status = DuelStatus.active →
        ∃ s, x.startTime = some s ∧ x.endTime = some (s + DUEL_DURATION)) := by
  have hres : accept_duel db u sel now =
      (update_duel_status db d.duelId DuelStatus.active (some now)
        (some (now + DUEL_DURATION)) (some p.name) (some p.url),
       AcceptReply.started p.name p.url) := by
    unfold accept_duel
    simp only [hd]
    rw [hsel]
  rw [hres]
  refine ⟨rfl, rfl, ?_, ?_, ?_⟩
  · intro x hx hid
    rcases List.mem_map.mp hx with ⟨y, hy, rfl⟩
    by_cases hyid : y.duelId = d.duelId
    · rw [if_pos hyid]
      exact ⟨rfl, rfl, rfl, rfl, rfl⟩
    · rw [if_neg hyid] at hid ⊢
      exact absurd hid hyid
  · have hdm : d ∈ db.duels := (lastP_some hd).1
    refine ⟨_, List.mem_map_of_mem _ hdm, ?_⟩
    rw [if_pos rfl]
  · intro hinv x hx hact
    rcases List.mem_map.mp hx with ⟨y, hy, rfl⟩
    by_cases hyid : y.duelId = d.duelId
    · rw [if_pos hyid]
      exact ⟨now, rfl, rfl⟩
    · rw [if_neg hyid] at hact ⊢
      exact hinv y hy hact

/-- Witness for C5 at the concrete pending store with a succeeding selector. -/
theorem accept_binds_problem_and_times_witness :
    DUEL_DURATION = 60 ∧
    (accept_duel exPendingDB 2 (fun _ => some ⟨"A", "u2"⟩) 100).2
      = AcceptReply.started "A" "u2" ∧
    (∃ x ∈ (accept_duel exPendingDB 2 (fun _ => some ⟨"A", "u2"⟩) 100).1.duels,
        x.duelId = 1) := by
  have h := accept_binds_problem_and_times exPendingDB 2
    (fun _ => some ⟨"A", "u2"⟩) 100
    ⟨1, 100, 1, 2, 1400, none, none, DuelStatus.pending, none, none⟩
    ⟨"A", "u2"⟩ (by decide) rfl
  exact ⟨h.1, h.2.1, h.2.2.2.1⟩


/-- C2 counterexample: in the store `exActiveDB` (one active duel of user 1
ending at time 10), the first `/duelstatus` call at time 10 completes the
duel, but the second call does not report the duel as completed (the
expired/completed report is `timeUp`): it finds no active duel and replies
`noActiveDuel`. -/
theorem duel_status_second_report_counterexample :
    (duel_status exActiveDB 1 10).2 = StatusReply.timeUp ∧
    (duel_status (duel_status exActiveDB 1 10).1 1 10).2 = StatusReply.noActiveDuel ∧
    ¬ (duel_status (duel_status exActiveDB 1 10).1 1 10).2 = StatusReply.timeUp := by
  decide

/-- C2 (amended): a `/duelstatus` call at `now ≥ end_time` reports time-up
and transitions the looked-up duel to completed, leaving every other duel
unchanged; if that duel was the caller's only active duel, every subsequent
`/duelstatus` call finds no active duel, replies `noActiveDuel`, and
performs no further transition (the store is returned unchanged). -/
theorem duel_status_expires_once (db : DB) (u now now2 : Int) (d : Duel)
    (e : Int) (hd : get_active_duel db u = some d) (he : d.endTime = some e)
    (hnow : e ≤ now) :
    (duel_status db u now).2 = StatusReply.timeUp ∧
    (∀ x ∈ (duel_status db u now).1.duels, x.duelId = d.duelId →
        x.status = DuelStatus.completed) ∧
    (∀ x ∈ db.duels, x.duelId ≠ d.duelId → x ∈ (duel_status db u now).1.duels) ∧
    ((∀ x ∈ db.duels, isActiveFor u x = true → x.duelId = d.duelId) →
      duel_status (duel_status db u now).1 u now2
        = ((duel_status db u now).1, StatusReply.noActiveDuel)) := by
  have hres : duel_status db u now =
      (update_duel_status db d.duelId DuelStatus.completed none none none none,
       StatusReply.timeUp) := by
    unfold duel_status
    simp only [hd, he]
    rw [if_pos (by simp [Option.getD]; omega)]
  rw [hres]
  refine ⟨rfl, ?_, ?_, ?_⟩
  · intro x hx hid
    rcases List.mem_map.mp hx with ⟨y, hy, rfl⟩
    by_cases hyid : y.duelId = d.duelId
    · rw [if_pos hyid]
    · rw [if_neg hyid] at hid ⊢
      exact absurd hid hyid
  · intro x hx hid
    have : (if x.duelId = d.duelId then
        { x with
          status := DuelStatus.completed
          startTime := setCol none x.startTime
          endTime := setCol none x.endTime
          problemName := setCol none x.problemName
          problemUrl := setCol none x.problemUrl } else x) = x := if_neg hid
    rw [← this]
    exact List.mem_map_of_mem _ hx
  · intro huniq
    have hnone : get_active_duel
        (update_duel_status db d.duelId DuelStatus.completed none none none none) u
        = none := by
      apply lastP_eq_none.mpr
      intro a ha
      rcases List.mem_map.mp ha with ⟨y, hy, rfl⟩
      by_cases hyid : y.duelId = d.duelId
      · rw [if_pos hyid]
        simp [isActiveFor]
      · rw [if_neg hyid]
        cases hact : isActiveFor u y with
        | false => rfl
        | true => exact absurd (huniq y hy hact) hyid
    unfold duel_status
    rw [hnone]

/-- Witness for C2's amended theorem at the concrete one-duel store. -/
theorem duel_status_expires_once_witness :
    (duel_status exActiveDB 1 10).2 = StatusReply.timeUp ∧
    duel_status (duel_status exActiveDB 1 10).1 1 25
      = ((duel_status exActiveDB 1 10).1, StatusReply.noActiveDuel) := by
  have h := duel_status_expires_once exActiveDB 1 10 25
    ⟨1, 100, 1, 2, 1400, some "P", some "u", DuelStatus.active, some (-50), some 10⟩
    10 (by decide) rfl (by decide)
  exact ⟨h.1, h.2.2.2 (by decide)⟩


/-- Same-day branch of `update_streak`: the row is returned unchanged. -/
theorem updateStreakRow_same (s : StreakRow) (today : Int)
    (h : s.lastSolveDate = some today) : updateStreakRow s today = s := by
  unfold updateStreakRow
  rw [if_pos h]

/-- Continuing-streak branch of `update_streak` (last solve exactly one day
before). -/
theorem updateStreakRow_cont (s : StreakRow) (today d : Int)
    (hne : s.lastSolveDate ≠ some today) (hd : s.lastSolveDate = some d)
    (h1 : today - d = 1) :
    updateStreakRow s today =
      ⟨s.currentStreak + 1, max s.maxStreak (s.currentStreak + 1),
       some today, s.totalSolves + 1⟩ := by
  unfold updateStreakRow
  rw [if_neg hne, hd]
  dsimp only
  rw [if_pos h1]

/-- Broken-streak branch of `update_streak` (a gap of more than one day). -/
theorem updateStreakRow_gap (s : StreakRow) (today d : Int)
    (hne : s.lastSolveDate ≠ some today) (hd : s.lastSolveDate = some d)
    (h1 : today - d ≠ 1) :
    updateStreakRow s today = ⟨1, s.maxStreak, some today, s.totalSolves + 1⟩ := by
  unfold updateStreakRow
  rw [if_neg hne, hd]
  dsimp only
  rw [if_neg h1]

/-- No-previous-date branch of `update_streak` on an existing row. -/
theorem updateStreakRow_fresh (s : StreakRow) (today : Int)
    (hd : s.lastSolveDate = none) :
    updateStreakRow s today = ⟨1, s.maxStreak, some today, s.totalSolves + 1⟩ := by
  unfold updateStreakRow
  rw [if_neg (by rw [hd]; exact Option.noConfusion), hd]

/-- Every `update_streak` result is stamped with the day it was called on. -/
theorem update_streak_lastSolveDate (row : Option StreakRow) (today : Int) :
    (update_streak row today).lastSolveDate = some today := by
  cases row with
  | none => rfl
  | some s =>
    show (updateStreakRow s today).lastSolveDate = some today
    by_cases h : s.lastSolveDate = some today
    · rw [updateStreakRow_same s today h]
      exact h
    · cases hd : s.lastSolveDate with
      | none => rw [updateStreakRow_fresh s today hd]
      | some d =>
        by_cases h1 : today - d = 1
        · rw [updateStreakRow_cont s today d h hd h1]
        · rw [updateStreakRow_gap s today d h hd h1]

/-- C8: `update_streak` is idempotent per calendar day: a row whose
`last_solve_date` is already `today` is returned unchanged, so a second
`record_solve` on the same day changes no field. -/
theorem record_solve_idempotent :
    (∀ (s : StreakRow) (today : Int), s.lastSolveDate = some today →
        update_streak (some s) today = s) ∧
    (∀ (row : Option StreakRow) (today : Int),
        update_streak (some (update_streak row today)) today
          = update_streak row today) := by
  have h1 : ∀ (s : StreakRow) (today : Int), s.lastSolveDate = some today →
      update_streak (some s) today = s := by
    intro s today h
    exact updateStreakRow_same s today h
  refine ⟨h1, ?_⟩
  intro row today
  exact h1 _ today (update_streak_lastSolveDate row today)

/-- Witness for C8: a row last updated on day 7 is unchanged by a day-7 call. -/
theorem record_solve_idempotent_witness :
    update_streak (some ⟨3, 5, some 7, 9⟩) 7 = ⟨3, 5, some 7, 9⟩ :=
  record_solve_idempotent.1 ⟨3, 5, some 7, 9⟩ 7 rfl

/-- One `update_streak` step never lowers `max_streak`. -/
theorem updateStreakRow_max_mono (s : StreakRow) (d : Int) :
    s.maxStreak ≤ (updateStreakRow s d).maxStreak := by
  by_cases h : s.lastSolveDate = some d
  · rw [updateStreakRow_same s d h]
  · cases hd : s.lastSolveDate with
    | none => rw [updateStreakRow_fresh s d hd]
    | some p =>
      by_cases h1 : d - p = 1
      · rw [updateStreakRow_cont s d p h hd h1]
        show s.maxStreak ≤ max s.maxStreak (s.currentStreak + 1)
        omega
      · rw [updateStreakRow_gap s d p h hd h1]

/-- `max_streak` never decreases across a run of `update_streak` calls. -/
theorem runStreak_max_mono (ds : List Int) (s : StreakRow) :
    s.maxStreak ≤ (runStreak s ds).maxStreak := by
  induction ds generalizing s with
  | nil => exact le_refl _
  | cons d tl ih =>
    rw [runStreak]
    exact le_trans (updateStreakRow_max_mono s d) (ih _)

/-- Rows the code has stored satisfy `1 ≤ max_streak` and
`current_streak ≤ max_streak`. -/
theorem stored_streak_invariant (s : StreakRow) (hs : StoredStreak s) :
    1 ≤ s.maxStreak ∧ s.currentStreak ≤ s.maxStreak := by
  induction hs with
  | first today => exact ⟨le_refl _, le_refl _⟩
  | step t today ht ih =>
    show 1 ≤ (updateStreakRow t today).maxStreak ∧
      (updateStreakRow t today).currentStreak ≤ (updateStreakRow t today).maxStreak
    by_cases h : t.lastSolveDate = some today
    · rw [updateStreakRow_same t today h]
      exact ih
    · cases hd : t.lastSolveDate with
      | none =>
        rw [updateStreakRow_fresh t today hd]
        exact ⟨ih.1, ih.1⟩
      | some p =>
        by_cases h1 : today - p = 1
        · rw [updateStreakRow_cont t today p h hd h1]
          constructor
          · show 1 ≤ max t.maxStreak (t.currentStreak + 1)
            omega
          · show t.currentStreak + 1 ≤ max t.maxStreak (t.currentStreak + 1)
            omega
        · rw [updateStreakRow_gap t today p h hd h1]
          exact ⟨ih.1, ih.1⟩

/-- A run of `update_streak` calls keeps the row a stored row. -/
theorem stored_streak_run (ds : List Int) (s : StreakRow) (hs : StoredStreak s) :
    StoredStreak (runStreak s ds) := by
  induction ds generalizing s with
  | nil => exact hs
  | cons d tl ih =>
    rw [runStreak]
    exact ih _ (StoredStreak.step s d hs)

/-- C9: from any stored streak row, across any sequence of `record_solve`
days `max_streak` never decreases and `current_streak ≤ max_streak` holds
afterwards (the sequence being arbitrary, this holds after every call); and
a call with a gap (neither the same day nor the following day) resets
`current_streak` to 1 while leaving `max_streak` exactly unchanged. -/
theorem record_solve_invariants (s : StreakRow) (hs : StoredStreak s)
    (ds : List Int) :
    s.maxStreak ≤ (runStreak s ds).maxStreak ∧
    (runStreak s ds).currentStreak ≤ (runStreak s ds).maxStreak ∧
    (∀ d : Int, s.lastSolveDate ≠ some d →
        (∀ p : Int, s.lastSolveDate = some p → d - p ≠ 1) →
        (updateStreakRow s d).maxStreak = s.maxStreak ∧
        (updateStreakRow s d).currentStreak = 1) := by
  refine ⟨runStreak_max_mono ds s,
    (stored_streak_invariant _ (stored_streak_run ds s hs)).2, ?_⟩
  intro d hne hgap
  cases hld : s.lastSolveDate with
  | none => rw [updateStreakRow_fresh s d hld]; exact ⟨rfl, rfl⟩
  | some p =>
    rw [updateStreakRow_gap s d p hne hld (hgap p hld)]
    exact ⟨rfl, rfl⟩

/-- Witness for C9: the first-solve row run through days 2 and 3. -/
theorem record_solve_invariants_witness :
    (update_streak none 0).maxStreak ≤ (runStreak (update_streak none 0) [2, 3]).maxStreak ∧
    (runStreak (update_streak none 0) [2, 3]).currentStreak
      ≤ (runStreak (update_streak none 0) [2, 3]).maxStreak ∧
    (updateStreakRow (update_streak none 0) 2).maxStreak = (update_streak none 0).maxStreak :=
  ⟨(record_solve_invariants (update_streak none 0) (StoredStreak.first 0) [2, 3]).1,
   (record_solve_invariants (update_streak none 0) (StoredStreak.first 0) [2, 3]).2.1,
   ((record_solve_invariants (update_streak none 0) (StoredStreak.first 0) [2, 3]).2.2
      2 (by decide) (fun p hp => by
        have h0 : (update_streak none 0).lastSolveDate = some 0 := rfl
        rw [h0] at hp
        injection hp with hp0
        omega)).1⟩


/-- The current-streak loop is the spec's backward walk: the accumulator
just adds to the matched-prefix length. -/
theorem currentWalk_spec (today : Int) (l : List Int) :
    ∀ c : Int, currentWalk today l c = c + specCurrentStreak today c l := by
  induction l with
  | nil => intro c; simp [currentWalk, specCurrentStreak]
  | cons d tl ih =>
    intro c
    simp only [currentWalk, specCurrentStreak]
    by_cases h : d = today - c
    · rw [if_pos h, if_pos h, ih (c + 1)]
      ring
    · rw [if_neg h, if_neg h]
      ring

/-- The scan state is a lower bound for the best run it can reach. -/
theorem chainMax_ge (l : List Int) : ∀ prev t : Int, t ≤ chainMax prev t l := by
  induction l with
  | nil => intro prev t; exact le_refl _
  | cons d tl ih =>
    intro prev t
    simp only [chainMax]
    by_cases h : prev - d = 1
    · rw [if_pos h]
      exact le_trans (by omega) (ih d (t + 1))
    · rw [if_neg h]
      omega

/-- The max-streak loop equals the best of the accumulator and the best
reachable run. -/
theorem maxLoop_chain (l : List Int) :
    ∀ prev t mx : Int, 1 ≤ t → t ≤ mx →
      maxLoop prev t mx l = max mx (chainMax prev t l) := by
  induction l with
  | nil =>
    intro prev t mx h1 h2
    simp only [maxLoop, chainMax]
    omega
  | cons d tl ih =>
    intro prev t mx h1 h2
    simp only [maxLoop, chainMax]
    by_cases h : prev - d = 1
    · rw [if_pos h, if_pos h, ih d (t + 1) (max mx (t + 1)) (by omega) (by omega)]
      have := chainMax_ge tl d (t + 1)
      omega
    · rw [if_neg h, if_neg h, ih d 1 mx (by omega) (by omega)]
      have := chainMax_ge tl d 1
      omega

/-- Head runs are nonnegative. -/
theorem headRun_nonneg (l : List Int) : 0 ≤ headRun l := by
  induction l with
  | nil => simp [headRun]
  | cons a tl ih =>
    cases tl with
    | nil => simp [headRun]
    | cons b tl2 =>
      simp only [headRun]
      by_cases h : a - b = 1
      · rw [if_pos h]
        have : (0 : Int) ≤ headRun (b :: tl2) := ih
        omega
      · rw [if_neg h]
        omega

/-- A nonempty list has a head run of at least one. -/
theorem headRun_pos (a : Int) (tl : List Int) : 1 ≤ headRun (a :: tl) := by
  cases tl with
  | nil => simp [headRun]
  | cons b tl2 =>
    simp only [headRun]
    by_cases h : a - b = 1
    · rw [if_pos h]
      have := headRun_nonneg (b :: tl2)
      omega
    · rw [if_neg h]

/-- The best reachable run of the scan, in terms of the spec's
longest-run-anywhere value: the pending run can only be extended by the
head run continuing `prev`, and everything after is a fresh run. -/
theorem chainMax_spec (l : List Int) :
    ∀ prev t : Int, 1 ≤ t →
      chainMax prev t l = max (t - 1 + headRun (prev :: l)) (specMaxStreak l) := by
  induction l with
  | nil =>
    intro prev t h1
    simp only [chainMax, headRun, specMaxStreak]
    omega
  | cons d tl ih =>
    intro prev t h1
    simp only [chainMax]
    by_cases h : prev - d = 1
    · rw [if_pos h, ih d (t + 1) (by omega)]
      have hr : headRun (prev :: d :: tl) = 1 + headRun (d :: tl) := by
        simp only [headRun]
        rw [if_pos h]
      rw [hr]
      simp only [specMaxStreak]
      omega
    · rw [if_neg h, ih d 1 (by omega)]
      have hr : headRun (prev :: d :: tl) = 1 := by
        simp only [headRun]
        rw [if_neg h]
      rw [hr]
      simp only [specMaxStreak]
      omega

/-- The max-streak loop, as seeded by the code, computes the spec's longest
run anywhere in the (nonempty) sorted date list. -/
theorem maxLoop_spec (a : Int) (tl : List Int) :
    maxLoop a 1 1 tl = specMaxStreak (a :: tl) := by
  rw [maxLoop_chain tl a 1 1 (le_refl _) (le_refl _),
      chainMax_spec tl a 1 (le_refl _)]
  simp only [specMaxStreak]
  have := headRun_pos a tl
  omega

/-- The computed current streak equals the spec's backward walk over the
distinct descending date set of the accepted submissions. -/
theorem calc_current_eq_spec (subs : List Submission) (today : Int) :
    (calculate_streak_from_submissions subs today).currentStreak
      = specCurrentStreak today 0 (sortedDatesDesc (datesOf subs)) := by
  cases subs with
  | nil => rfl
  | cons s rest =>
    simp only [calculate_streak_from_submissions]
    cases hsd : sortedDatesDesc (datesOf (s :: rest)) with
    | nil => rfl
    | cons a tl =>
      dsimp only
      rw [currentWalk_spec today (a :: tl) 0]
      ring

/-- The computed max streak equals the spec's longest-run-anywhere value
over the distinct descending date set of the accepted submissions. -/
theorem calc_max_eq_spec (subs : List Submission) (today : Int) :
    (calculate_streak_from_submissions subs today).maxStreak
      = specMaxStreak (sortedDatesDesc (datesOf subs)) := by
  cases subs with
  | nil => rfl
  | cons s rest =>
    simp only [calculate_streak_from_submissions]
    cases hsd : sortedDatesDesc (datesOf (s :: rest)) with
    | nil => rfl
    | cons a tl =>
      dsimp only
      exact maxLoop_spec a tl


/-- Inserting a day larger than the head of a descending list puts it in
front. -/
theorem insertDateDesc_gt (x y : Int) (tl : List Int) (h : y < x) :
    insertDateDesc x (y :: tl) = x :: y :: tl := by
  simp only [insertDateDesc]
  rw [if_pos h]

/-- Matching step of the current-streak walk. -/
theorem currentWalk_pos (today d c : Int) (tl : List Int) (h : d = today - c) :
    currentWalk today (d :: tl) c = currentWalk today tl (c + 1) := by
  simp only [currentWalk]
  rw [if_pos h]

/-- Breaking step of the current-streak walk. -/
theorem currentWalk_neg (today d c : Int) (tl : List Int) (h : ¬ d = today - c) :
    currentWalk today (d :: tl) c = c := by
  simp only [currentWalk]
  rw [if_neg h]

/-- One-day-gap step of the max-streak scan. -/
theorem maxLoop_pos (prev d t mx : Int) (tl : List Int) (h : prev - d = 1) :
    maxLoop prev t mx (d :: tl) = maxLoop d (t + 1) (max mx (t + 1)) tl := by
  simp only [maxLoop]
  rw [if_pos h]

/-- Run-breaking step of the max-streak scan. -/
theorem maxLoop_neg (prev d t mx : Int) (tl : List Int) (h : ¬ prev - d = 1) :
    maxLoop prev t mx (d :: tl) = maxLoop d 1 mx tl := by
  simp only [maxLoop]
  rw [if_neg h]

/-- C6: `calculate_streak_from_submissions` filters to accepted
submissions, reduces to the distinct descending date set, and computes
`current_streak` as the spec's backward walk from the reference date
(breaking at the first date that is not `reference_date - current_streak`);
in particular solve-dates `D, D+1, D+2` with reference date `D+2` give
current streak 3, max streak 3 and 3 solve days. -/
theorem streak_current_from_history :
    (∀ (subs : List Submission) (today : Int),
        (calculate_streak_from_submissions subs today).currentStreak
          = specCurrentStreak today 0 (sortedDatesDesc (datesOf subs))) ∧
    (∀ D : Int,
        calculate_streak_from_submissions
          [⟨"OK", D⟩, ⟨"OK", D + 1⟩, ⟨"OK", D + 2⟩] (D + 2) = ⟨3, 3, 3⟩) := by
  refine ⟨calc_current_eq_spec, ?_⟩
  intro D
  have hdates : datesOf [⟨"OK", D⟩, ⟨"OK", D + 1⟩, ⟨"OK", D + 2⟩]
      = [D, D + 1, D + 2] := rfl
  have hsorted : sortedDatesDesc [D, D + 1, D + 2] = [D + 2, D + 1, D] := by
    simp only [sortedDatesDesc, List.foldl]
    rw [show insertDateDesc D [] = [D] from rfl,
        insertDateDesc_gt (D + 1) D [] (by omega),
        insertDateDesc_gt (D + 2) (D + 1) [D] (by omega)]
  have hw : currentWalk (D + 2) [D + 2, D + 1, D] 0 = 3 := by
    rw [currentWalk_pos (D + 2) (D + 2) 0 [D + 1, D] (by omega),
        currentWalk_pos (D + 2) (D + 1) (0 + 1) [D] (by omega),
        currentWalk_pos (D + 2) D (0 + 1 + 1) [] (by omega)]
    simp only [currentWalk]
    norm_num
  have hm : maxLoop (D + 2) 1 1 [D + 1, D] = 3 := by
    rw [maxLoop_pos (D + 2) (D + 1) 1 1 [D] (by omega),
        maxLoop_pos (D + 1) D (1 + 1) (max 1 (1 + 1)) [] (by omega)]
    simp only [maxLoop]
    omega
  simp only [calculate_streak_from_submissions, hdates, hsorted]
  rw [hw, hm]
  rfl

/-- C7: `calculate_streak_from_submissions` computes `max_streak` as the
spec's longest run of consecutive dates anywhere in the distinct sorted
date set; a one-element date set gives max streak 1; an empty date set
gives all zeros; and solve-dates `D, D+2` with reference date `D+2` give
current streak 1 and max streak 1. -/
theorem streak_max_from_history :
    (∀ (subs : List Submission) (today : Int),
        (calculate_streak_from_submissions subs today).maxStreak
          = specMaxStreak (sortedDatesDesc (datesOf subs))) ∧
    (∀ (subs : List Submission) (today a : Int),
        sortedDatesDesc (datesOf subs) = [a] →
        (calculate_streak_from_submissions subs today).maxStreak = 1) ∧
    (∀ (subs : List Submission) (today : Int),
        sortedDatesDesc (datesOf subs) = [] →
        calculate_streak_from_submissions subs today = ⟨0, 0, 0⟩) ∧
    (∀ D : Int,
        (calculate_streak_from_submissions [⟨"OK", D⟩, ⟨"OK", D + 2⟩] (D + 2)).currentStreak = 1 ∧
        (calculate_streak_from_submissions [⟨"OK", D⟩, ⟨"OK", D + 2⟩] (D + 2)).maxStreak = 1) := by
  refine ⟨calc_max_eq_spec, ?_, ?_, ?_⟩
  · intro subs today a h
    rw [calc_max_eq_spec subs today, h]
    simp only [specMaxStreak, headRun]
    omega
  · intro subs today h
    cases subs with
    | nil => rfl
    | cons s rest =>
      simp only [calculate_streak_from_submissions, h]
  · intro D
    have hdates : datesOf [⟨"OK", D⟩, ⟨"OK", D + 2⟩] = [D, D + 2] := rfl
    have hsorted : sortedDatesDesc [D, D + 2] = [D + 2, D] := by
      simp only [sortedDatesDesc, List.foldl]
      rw [show insertDateDesc D [] = [D] from rfl,
          insertDateDesc_gt (D + 2) D [] (by omega)]
    have hw : currentWalk (D + 2) [D + 2, D] 0 = 1 := by
      rw [currentWalk_pos (D + 2) (D + 2) 0 [D] (by omega),
          currentWalk_neg (D + 2) D (0 + 1) [] (by omega)]
      norm_num
    have hm : maxLoop (D + 2) 1 1 [D] = 1 := by
      rw [maxLoop_neg (D + 2) D 1 1 [] (by omega)]
      rfl
    constructor
    · simp only [calculate_streak_from_submissions, hdates, hsorted]
      exact hw
    · simp only [calculate_streak_from_submissions, hdates, hsorted]
      exact hm

/-- Witness for C7's conditional conjuncts on a concrete one-submission
history. -/
theorem streak_max_from_history_witness :
    (calculate_streak_from_submissions [⟨"OK", 5⟩] 9).maxStreak = 1 ∧
    calculate_streak_from_submissions [⟨"FAILED", 5⟩] 9 = ⟨0, 0, 0⟩ :=
  ⟨streak_max_from_history.2.1 [⟨"OK", 5⟩] 9 5 (by decide),
   streak_max_from_history.2.2.1 [⟨"FAILED", 5⟩] 9 (by decide)⟩


/-- The resolved random choice is one of the candidates. -/
theorem chooseFrom_mem (ps : List CFProblem) (pick : Nat) (dflt : CFProblem)
    (h : ps ≠ []) : chooseFrom ps pick dflt ∈ ps := by
  unfold chooseFrom
  have hlt : pick % ps.length < ps.length :=
    Nat.mod_lt _ (List.length_pos.mpr h)
  rw [List.getD_eq_getElem?_getD, List.getElem?_eq_getElem hlt]
  simp only [Option.getD_some]
  exact List.getElem_mem hlt

/-- Whatever `mkSelected` returns carries the chosen problem's rating
field unchanged. -/
theorem mkSelected_rating (problem : CFProblem) (sel : SelectedProblem)
    (h : mkSelected problem = some sel) : sel.rating = problem.rating := by
  unfold mkSelected at h
  cases hc : problem.contestId with
  | none =>
    rw [hc] at h
    simp at h
  | some cid =>
    cases hi : problem.index with
    | none =>
      rw [hc, hi] at h
      simp at h
    | some idx =>
      rw [hc, hi] at h
      simp only [] at h
      split at h
      · exact absurd h (by simp)
      · have := Option.some.inj h
        rw [← this]

/-- A true rating-window test names the rating and bounds it. -/
theorem ratingInWindow_true (minR maxR : Int) (p : CFProblem)
    (h : ratingInWindow minR maxR p = true) :
    ∃ x : Int, p.rating = some x ∧ minR ≤ x ∧ x ≤ maxR := by
  unfold ratingInWindow at h
  cases hr : p.rating with
  | none =>
    rw [hr] at h
    simp at h
  | some x =>
    rw [hr] at h
    simp only [decide_eq_true_eq] at h
    exact ⟨x, rfl, h.1, h.2⟩

/-- C10: with a target rating, every problem the Codeforces selector
returns carries a rating within the fixed plus-or-minus-100 window of the
target, and an empty candidate set within the window makes the selector
report unavailability (`none`). -/
theorem selector_rating_window :
    (∀ (fetched : Option (List CFProblem)) (r : Int) (pick : Nat)
        (sel : SelectedProblem),
        get_codeforces_problem fetched (some r) pick = some sel →
        ∃ x : Int, sel.rating = some x ∧ r - 100 ≤ x ∧ x ≤ r + 100) ∧
    (∀ (ps : List CFProblem) (r : Int) (pick : Nat),
        ps.filter (ratingInWindow (r - 100) (r + 100)) = [] →
        get_codeforces_problem (some ps) (some r) pick = none) := by
  constructor
  · intro fetched r pick sel h
    unfold get_codeforces_problem at h
    cases fetched with
    | none => simp [get_problems_by_rating] at h
    | some ps =>
      simp only [get_problems_by_rating] at h
      cases hf : ps.filter (ratingInWindow (r - 100) (r + 100)) with
      | nil =>
        rw [hf] at h
        simp at h
      | cons p₀ rest =>
        rw [hf] at h
        simp only [] at h
        have hmem : chooseFrom (p₀ :: rest) pick p₀ ∈ p₀ :: rest :=
          chooseFrom_mem _ _ _ (by simp)
        have hall : ∀ a ∈ p₀ :: rest, ratingInWindow (r - 100) (r + 100) a = true := by
          rw [← hf]
          exact fun a ha => (List.mem_filter.mp ha).2
        have hpred := hall _ hmem
        rcases ratingInWindow_true _ _ _ hpred with ⟨x, hx, hlo, hhi⟩
        exact ⟨x, by rw [mkSelected_rating _ _ h, hx], hlo, hhi⟩
  · intro ps r pick h
    unfold get_codeforces_problem
    simp only [get_problems_by_rating, h]

/-- Witness for C10 on a concrete problemset at target rating 1400. -/
theorem selector_rating_window_witness :
    (∃ x : Int,
      (⟨"x", some 1350, [], "https://codeforces.com/problemset/problem/1/A",
        1, "A"⟩ : SelectedProblem).rating = some x ∧
      1400 - 100 ≤ x ∧ x ≤ 1400 + 100) ∧
    get_codeforces_problem
      (some [⟨some 2, some "B", some "y", some 2000, []⟩]) (some 1400) 0 = none :=
  ⟨selector_rating_window.1
      (some [⟨some 1, some "A", some "x", some 1350, []⟩,
             ⟨some 2, some "B", some "y", some 2000, []⟩])
      1400 0
      ⟨"x", some 1350, [], "https://codeforces.com/problemset/problem/1/A", 1, "A"⟩
      (by decide),
   selector_rating_window.2 [⟨some 2, some "B", some "y", some 2000, []⟩]
      1400 0 (by decide)⟩

end CpMaster
